import Mathlib

/-!
Verification development for the automation run engine of this repository.

Shallow embedding of:
* `src/features/run/domain/entity/run.entity.ts` — the `Run` aggregate: step tree,
  dotted-path addressing, status transitions, cloning, error reporting.
* the `split-into-paths` case of `RunActionUseCase.execute` (action use case),
* the fan-out / filter / split post-processing of `RunAutomationUseCase.runAction`
  (`src/features/form/domain/schema/form.schema.ts`).

Modelling conventions:
* JavaScript objects are association lists of string keys and `JVal` values; object
  assignment `o[k] = v` keeps the original key position (`setKey`).
* `Date` values (ISO timestamps and `updatedAt`) are modelled as `Nat` clock readings;
  every mutating operation takes an explicit `now` argument.
* `crypto.randomUUID()` is modelled by an explicit fresh-id argument.
* Exceptions are modelled with `Except String`; a `.error` result is a thrown error
  and leaves the caller with the unchanged run (the source mutates only after all
  lookups that can throw have succeeded, which the definitions mirror).
* The trigger step (`steps[0]`) is modelled from the spec: the spec only says it
  holds the trigger's input/output and is never addressed by an action path, so it
  never satisfies the name-lookup guard.
-/

/-- JSON-like runtime values (step inputs, outputs, filter results). -/
inductive JVal : Type where
  | null : JVal
  | bool (b : Bool) : JVal
  | num (n : Int) : JVal
  | str (s : String) : JVal
  | arr (xs : List JVal) : JVal
  | obj (fields : List (String × JVal)) : JVal
  deriving Repr

/-- Property read `fields[k]` on an object's field list: first binding wins
(field lists built by `setKey` have unique keys, matching JS objects). -/
def getKeyFields : List (String × JVal) → String → Option JVal
  | [], _ => none
  | (k', v) :: rest, k => if k' = k then some v else getKeyFields rest k

/-- Property read `v[k]`; non-objects have no string-keyed properties we use. -/
def getKey (v : JVal) (k : String) : Option JVal :=
  match v with
  | .obj fs => getKeyFields fs k
  | _ => none

/-- JS object assignment `o[k] = v`: overwrite in place, else append. -/
def setKey : List (String × JVal) → String → JVal → List (String × JVal)
  | [], k, v => [(k, v)]
  | (k', v') :: rest, k, v =>
    if k' = k then (k, v) :: rest else (k', v') :: setKey rest k v

/-- IntegrationError / ServiceError: the engine only ever reads `.message`. -/
structure ErrV where
  message : String
  deriving Repr, DecidableEq

mutual
/-- One node of a run's step list: the trigger (steps[0], modelled from the spec),
an action step (`type: 'action'`, with `input`/`output`/`error` keys always present),
or a paths step (`type: 'paths'`, no `input`/`output`/`error` keys).
Schemas are represented by their `name` discriminator, the only part the engine reads. -/
inductive Step : Type where
  | trigger (output : Option JVal) : Step
  | action (name : String) (startedAt : Nat) (input : JVal) (output : Option JVal)
      (error : Option ErrV) (finishedAt : Option Nat) : Step
  | paths (name : String) (startedAt : Nat) (entries : List PathEntry)
      (finishedAt : Option Nat) : Step
  deriving Repr
/-- A `PathStep` entry of a paths step: path schema (`name` + `filter`), the filter's
`input`/`output`, and the nested `actions` recorded while executing the path. -/
inductive PathEntry : Type where
  | mk (name : String) (filter : JVal) (input : JVal) (output : JVal)
      (actions : List Step) : PathEntry
  deriving Repr
end

def PathEntry.name : PathEntry → String
  | .mk n _ _ _ _ => n

def PathEntry.filter : PathEntry → JVal
  | .mk _ f _ _ _ => f

def PathEntry.input : PathEntry → JVal
  | .mk _ _ i _ _ => i

def PathEntry.output : PathEntry → JVal
  | .mk _ _ _ o _ => o

def PathEntry.actions : PathEntry → List Step
  | .mk _ _ _ _ acts => acts

def PathEntry.setActions : PathEntry → List Step → PathEntry
  | .mk n f i o _, acts => .mk n f i o acts

/-- JS `actionPath.split('.')` on the dotted path strings the engine uses. -/
def splitDotsAux : List Char → List Char → List String
  | [], acc => [String.mk acc.reverse]
  | c :: rest, acc =>
    if c = '.' then String.mk acc.reverse :: splitDotsAux rest []
    else splitDotsAux rest (c :: acc)

def splitDots (s : String) : List String := splitDotsAux s.data []

/-- Lookup guard `('input' in step || 'paths' in step) && step.schema.name === actionName`
(run.entity.ts, getActionOrPathsStep): action steps carry `input`, paths steps carry
`paths`; the trigger step is modelled from the spec as not addressable by name. -/
def stepMatches (actionName : String) : Step → Bool
  | .action n _ _ _ _ _ => n == actionName
  | .paths n _ _ _ => n == actionName
  | .trigger _ => false

/-- Check `action.error` on a direct member of a path's `actions` list
(only action steps own an `error` property; on a nested paths step the read
yields `undefined`). -/
def stepHasDirectError : Step → Bool
  | .action _ _ _ _ e _ => e.isSome
  | _ => false

/-- Replace the first element satisfying `p` (mutation through the reference
returned by a `find`-style lookup). -/
def modifyFirst (p : α → Bool) (f : α → α) : List α → List α
  | [] => []
  | a :: t => if p a then f a :: t else a :: modifyFirst p f t

/-- Like `modifyFirst` but reports whether a matching element was found. -/
def modifyFirstO (p : α → Bool) (f : α → α) : List α → Option (List α)
  | [] => none
  | a :: t => if p a then some (f a :: t) else (modifyFirstO p f t).map (a :: ·)

/-- Set the `actions` list of the first entry named `p` inside a paths step. -/
def setPathActions (p : String) (acts : List Step) : Step → Step
  | .paths n st es f =>
    .paths n st (modifyFirst (fun en => en.name == p) (fun en => en.setActions acts) es) f
  | s => s

/-- The Run status union `'playing' | 'success' | 'stopped' | 'filtered'`. -/
inductive RunStatus : Type where
  | playing
  | success
  | stopped
  | filtered
  deriving Repr, DecidableEq

/-- The Run entity (run.entity.ts). `steps` holds the trigger step first, then
action-or-paths steps. -/
structure Run where
  automation_id : Nat
  steps : List Step
  form_id : Option Nat
  status : RunStatus
  id : String
  createdAt : Nat
  updatedAt : Nat
  toReplay : Bool
  deriving Repr

/-- Run.getActionOrPathsStep, on the split path segments. `ctx` is the optional
`steps` parameter of the source (used only by the single-segment scan; the
nested branch's first-segment lookup always searches `this.steps`). A thrown
`'Path step not found'` is an `.error`. -/
def Run.getSegs (r : Run) (segs : List String) (ctx : Option (List Step)) :
    Except String (Option Step) :=
  match segs with
  | a :: p :: rest =>
    match r.steps.find? (stepMatches a) with
    | none => .ok none
    | some step =>
      match step with
      | .paths _ _ entries _ =>
        match entries.find? (fun en => en.name == p) with
        | none => .error "Path step not found"
        | some en =>
          match rest with
          | [] => .ok (some step)
          | _ => r.getSegs rest (some en.actions)
      | _ => .ok none
  | _ => .ok ((ctx.getD r.steps).find? (stepMatches (segs.headD "")))

/-- Run.getActionOrPathsStep(actionPath). -/
def Run.getActionOrPathsStep (r : Run) (path : String) : Except String (Option Step) :=
  r.getSegs (splitDots path) none

/-- Run.getActionOrPathsStepOrThrow(actionPath). -/
def Run.getActionOrPathsStepOrThrow (r : Run) (path : String) : Except String Step :=
  match r.getActionOrPathsStep path with
  | .error e => .error e
  | .ok none => .error ("Action step \"" ++ path ++ "\" not found")
  | .ok (some s) => .ok s

/-- Apply `f` to the step a dotted path resolves to, mirroring how the source
mutates the object reference returned by `getActionOrPathsStep`; `.ok none`
means the lookup found no step (so the caller's `OrThrow` would throw), and
`.error` is a thrown `'Path step not found'`. The branch structure follows
`Run.getSegs` exactly. -/
def Run.mutateSegs (r : Run) (segs : List String) (f : Step → Step) :
    Except String (Option (List Step)) :=
  match segs with
  | a :: p :: rest =>
    match r.steps.find? (stepMatches a) with
    | none => .ok none
    | some (.paths _ _ entries _) =>
      match entries.find? (fun en => en.name == p) with
      | none => .error "Path step not found"
      | some en =>
        match rest with
        | [] => .ok (some (modifyFirst (stepMatches a) f r.steps))
        | [c] =>
          match modifyFirstO (stepMatches c) f en.actions with
          | none => .ok none
          | some acts =>
            .ok (some (modifyFirst (stepMatches a) (setPathActions p acts) r.steps))
        | _ => r.mutateSegs rest f
    | some _ => .ok none
  | _ => .ok (modifyFirstO (stepMatches (segs.headD "")) f r.steps)

/-- Write `step.output = output` (guarded by `'output' in step`: only action
steps both carry the key and are reachable by lookup). -/
def setOutput (s : Step) (v : JVal) : Step :=
  match s with
  | .action n st i _ e f => .action n st i (some v) e f
  | s => s

/-- Write `step.error = error` (guarded by `'error' in step`). -/
def setError (s : Step) (e : ErrV) : Step :=
  match s with
  | .action n st i o _ f => .action n st i o (some e) f
  | s => s

/-- Write `step.finishedAt = new Date().toISOString()` (action and paths steps). -/
def setFinished (s : Step) (now : Nat) : Step :=
  match s with
  | .action n st i o e _ => .action n st i o e (some now)
  | .paths n st es _ => .paths n st es (some now)
  | s => s

/-- Run.startActionStep, on split segments; `name` is `schema.name` of the
appended step (the engine records the full schema, of which only the name is
ever read back). Note the source restarts resolution from `this` — the whole
run — once more than one `(actionName, pathName)` pair remains. -/
def Run.startSegs (r : Run) (segs : List String) (name : String) (input : JVal)
    (now : Nat) : Except String Run :=
  match segs with
  | a :: p :: rest =>
    match r.steps.find? (stepMatches a) with
    | none => .error ("Action step \"" ++ a ++ "\" not found")
    | some (.paths _ _ entries _) =>
      match entries.find? (fun en => en.name == p) with
      | none => .error "Path step not found"
      | some en =>
        match rest with
        | [] =>
          .ok { r with
            steps := modifyFirst (stepMatches a)
              (setPathActions p (en.actions ++ [Step.action name now input none none none]))
              r.steps,
            updatedAt := now }
        | [_] =>
          .ok { r with
            steps := modifyFirst (stepMatches a)
              (setPathActions p (en.actions ++ [Step.action name now input none none none]))
              r.steps,
            updatedAt := now }
        | _ => r.startSegs rest name input now
    | some _ => .error "Action step not found"
  | _ =>
    .ok { r with
      steps := r.steps ++ [Step.action name now input none none none],
      updatedAt := now }

/-- Run.startActionStep(actionPath, schema, input). -/
def Run.startActionStep (r : Run) (path : String) (name : String) (input : JVal)
    (now : Nat) : Except String Run :=
  r.startSegs (splitDots path) name input now

/-- Run.startActionPathsStep(schema, paths): always appends at top level. -/
def Run.startActionPathsStep (r : Run) (name : String) (entries : List PathEntry)
    (now : Nat) : Run :=
  { r with steps := r.steps ++ [Step.paths name now entries none], updatedAt := now }

/-- Run.successActionStep(actionPath, output). -/
def Run.successActionStep (r : Run) (path : String) (output : JVal) (now : Nat) :
    Except String Run :=
  match r.mutateSegs (splitDots path) (fun s => setFinished (setOutput s output) now) with
  | .error e => .error e
  | .ok none => .error ("Action step \"" ++ path ++ "\" not found")
  | .ok (some steps) => .ok { r with steps := steps, updatedAt := now }

/-- Run.filterActionStep(actionPath, result): only acts while `playing`. -/
def Run.filterActionStep (r : Run) (path : String) (result : JVal) (now : Nat) :
    Except String Run :=
  if r.status = RunStatus.playing then
    match r.mutateSegs (splitDots path) (fun s => setFinished (setOutput s result) now) with
    | .error e => .error e
    | .ok none => .error ("Action step \"" ++ path ++ "\" not found")
    | .ok (some steps) =>
      .ok { r with steps := steps, updatedAt := now, status := RunStatus.filtered }
  else .ok r

/-- Run.stopActionStep(actionPath, error): only acts from `playing` or `filtered`;
a failed lookup is tolerated (the status still flips, nothing is recorded). -/
def Run.stopActionStep (r : Run) (path : String) (e : ErrV) (now : Nat) :
    Except String Run :=
  if r.status = RunStatus.playing ∨ r.status = RunStatus.filtered then
    match r.mutateSegs (splitDots path) (fun s => setFinished (setError s e) now) with
    | .error err => .error err
    | .ok none => .ok { r with updatedAt := now, status := RunStatus.stopped }
    | .ok (some steps) =>
      .ok { r with steps := steps, updatedAt := now, status := RunStatus.stopped }
  else .ok r

/-- Run.runSucceed(): `playing → success`, otherwise a no-op (does not touch
`updatedAt`). -/
def Run.runSucceed (r : Run) : Run :=
  if r.status = RunStatus.playing then { r with status := RunStatus.success } else r

/-- Run.clone(): a fresh id from `crypto.randomUUID()`, a JSON round-trip copy of
the steps (value-identical here), and explicitly the original's `createdAt` and
`updatedAt`; the replay flag falls back to the constructor default `false`. -/
def Run.clone (r : Run) (freshId : String) : Run :=
  { r with id := freshId, toReplay := false }

/-- Run.replay(). -/
def Run.replay (r : Run) : Run := { r with toReplay := true }

/-- Run.replaying(). -/
def Run.replaying (r : Run) (now : Nat) : Run :=
  { r with status := RunStatus.playing, updatedAt := now, toReplay := false }

/-- Run.isStepExecuted(actionPath). -/
def Run.isStepExecuted (r : Run) (path : String) : Except String Bool :=
  match r.getActionOrPathsStep path with
  | .error e => .error e
  | .ok none => .ok false
  | .ok (some s) =>
    .ok (match s with
      | .action _ _ _ out _ _ => out.isSome
      | .trigger out => out.isSome
      | .paths _ _ _ _ => true)

/-- Run.isStepExecutedWithSuccess(actionPath): an action step succeeds iff its
`error` is unset; a paths step succeeds iff no direct action of any of its
paths carries an error (`path.actions.some(action => action.error)`). -/
def Run.isStepExecutedWithSuccess (r : Run) (path : String) : Except String Bool :=
  match r.getActionOrPathsStep path with
  | .error e => .error e
  | .ok none => .ok false
  | .ok (some s) =>
    .ok (match s with
      | .action _ _ _ _ err _ => err.isNone
      | .trigger out => out.isSome
      | .paths _ _ entries _ => !(entries.any fun en => en.actions.any stepHasDirectError))

mutual
/-- Weight measure for termination of traversals that flatten path actions. -/
def stepW : Step → Nat
  | .paths _ _ es _ => 1 + entriesW es
  | _ => 1
def entriesW : List PathEntry → Nat
  | [] => 0
  | .mk _ _ _ _ acts :: rest => stepsW acts + entriesW rest
def stepsW : List Step → Nat
  | [] => 0
  | s :: rest => stepW s + stepsW rest
end

theorem stepsW_append (l1 l2 : List Step) :
    stepsW (l1 ++ l2) = stepsW l1 + stepsW l2 := by
  induction l1 with
  | nil => simp [stepsW]
  | cons s t ih => simp [stepsW, ih]; omega

theorem stepsW_flatMap (es : List PathEntry) :
    stepsW (es.flatMap PathEntry.actions) = entriesW es := by
  induction es with
  | nil => simp [List.flatMap, stepsW, entriesW]
  | cons en rest ih =>
    cases en with
    | mk n f i o acts =>
      simp [List.flatMap] at ih ⊢
      rw [stepsW_append, ih, entriesW]
      simp [PathEntry.actions]

theorem stepW_pos (s : Step) : 0 < stepW s := by
  cases s <;> simp [stepW]

/-- The inner `getError` of Run.getErrorMessage: walk the steps in order; on a
paths step, return the recursive search of the flattened path actions (note the
source `return`s that result unconditionally, so later siblings are not visited);
on an action step with a defined `error`, return it. -/
def getErr : List Step → Option ErrV
  | [] => none
  | s :: rest =>
    match s with
    | .paths _ _ entries _ => getErr (entries.flatMap PathEntry.actions)
    | .action _ _ _ _ (some e) _ => some e
    | .action _ _ _ _ none _ => getErr rest
    | .trigger _ => getErr rest
termination_by l => stepsW l
decreasing_by
  all_goals simp [stepsW_flatMap, stepsW, stepW]
  omega

/-- Run.getErrorMessage(): search the non-trigger steps. -/
def Run.getErrorMessage (r : Run) : Option String :=
  match getErr (r.steps.drop 1) with
  | some e => some e.message
  | none => none

mutual
/-- The `buildOutput` reducer of Run.getStepsOutput: paths steps contribute a
nested object of per-path outputs, action steps contribute `output ?? {}`
(their schemas always carry the `action` discriminator the guard tests for). -/
def buildOutputGo (acc : List (String × JVal)) : List Step → List (String × JVal)
  | [] => acc
  | .paths n _ es _ :: rest =>
    buildOutputGo (setKey acc n (.obj (buildEntriesGo [] es))) rest
  | .action n _ _ out _ _ :: rest =>
    buildOutputGo (setKey acc n (out.getD (.obj []))) rest
  | .trigger _ :: rest => buildOutputGo acc rest
def buildEntriesGo (acc : List (String × JVal)) : List PathEntry → List (String × JVal)
  | [] => acc
  | .mk n _ _ _ acts :: rest =>
    buildEntriesGo (setKey acc n (.obj (buildOutputGo [] acts))) rest
end

/-- Property read `trigger.output` on whatever sits at steps[0]. -/
def triggerOutputVal : Step → JVal
  | .trigger out => out.getD .null
  | .action _ _ _ out _ _ => out.getD .null
  | .paths _ _ _ _ => .null

/-- Run.getStepsOutput(): outputs of the non-trigger steps plus the trigger
output under the `trigger` key. An empty steps list cannot occur (spec §3:
steps[0] is always the trigger). -/
def Run.getStepsOutput (r : Run) : JVal :=
  match r.steps with
  | [] => .obj (setKey [] "trigger" .null)
  | t :: actions => .obj (setKey (buildOutputGo [] actions) "trigger" (triggerOutputVal t))

/-- The element-with-position value `{...data[i], index: i + 1}` built in the
multi-item fan-out branch of RunAutomationUseCase.runAction (form.schema.ts).
Spreading a non-object contributes no string-keyed fields of interest. -/
def withIndex (v : JVal) (i : Nat) : JVal :=
  match v with
  | .obj fs => .obj (setKey fs "index" (.num i))
  | _ => .obj [("index", .num i)]

/-- Effects of one `runAction` dispatch on the run store: the current run after
its mutations, the `runRepository.update` calls in order, the cloned runs passed
to `runRepository.create` in order, and the boolean the method returns. -/
structure FanOutResult where
  run : Run
  updates : List Run
  creates : List Run
  shouldContinue : Bool
  deriving Repr

/-- The clone loop of the fan-out branch (iterations `i = 1 .. data.length-1`):
each remaining element clones the already-updated current run, overwrites the
step output with its own indexed item, and is persisted as a new run.
`ids j` is the uuid drawn for the clone of element `rest[j]`. -/
def fanClones (cur : Run) (actionPath : String) (rest : List JVal) (ids : Nat → String)
    (now : Nat) (j : Nat) : Except String (List Run) :=
  match rest with
  | [] => .ok []
  | x :: xs => do
    let c ← (cur.clone (ids j)).successActionStep actionPath (withIndex x (j + 2)) now
    let cs ← fanClones cur actionPath xs ids now (j + 1)
    .ok (c :: cs)

/-- The `Array.isArray(data)` branch of RunAutomationUseCase.runAction
(form.schema.ts): an empty array filters the run (`this.filter` →
`filterActionStep` + update) and stops the walk; otherwise the first element
continues on the current run (`successActionStep` + update) and every further
element is persisted as a clone carrying that single indexed item. -/
def runActionArray (run : Run) (actionPath : String) (data : List JVal)
    (ids : Nat → String) (now : Nat) : Except String FanOutResult :=
  match data with
  | [] => do
    let r ← run.filterActionStep actionPath (.arr []) now
    .ok ⟨r, [r], [], false⟩
  | first :: rest => do
    let r ← run.successActionStep actionPath (withIndex first 1) now
    let clones ← fanClones r actionPath rest ids now 0
    .ok ⟨r, [r], clones, true⟩

/-- A declared path of a `split-into-paths` action (`action.params` entry):
its name and its filter condition schema. -/
structure PathParam where
  name : String
  filter : JVal
  deriving Repr

/-- One iteration of the `split-into-paths` loop in RunActionUseCase.execute:
`eval p output` abstracts `fillSchema(path.filter, output)` followed by
`runFilterUseCase.execute` and returns the filled filter together with the
filter decision, or the thrown error's string. On a throw the path still gets
an entry, with the raw filter as input and `{canContinue: false, error}` as
output; either way the entry starts with an empty `actions` list. The result
also carries the `paths[path.name]` assignment for the returned data object. -/
def splitEntry (stepsOutput : JVal) (eval : PathParam → JVal → Except String (JVal × JVal))
    (p : PathParam) : PathEntry × (String × JVal) :=
  match eval p stepsOutput with
  | .ok (filled, result) => (.mk p.name p.filter filled result [], (p.name, result))
  | .error e =>
    let out : JVal := .obj [("canContinue", .bool false), ("error", .str e)]
    (.mk p.name p.filter p.filter out [], (p.name, out))

/-- Build a JS object by assigning the pairs left to right. -/
def objOfPairs (pairs : List (String × JVal)) : List (String × JVal) :=
  pairs.foldl (fun acc kv => setKey acc kv.1 kv.2) []

/-- The `case 'split-into-paths'` body of RunActionUseCase.execute: evaluate
every declared path's filter independently (the run is not mutated inside the
loop, so each iteration sees the same `getStepsOutput()`), then emit the single
paths step via `startActionPathsStep` and return the per-path decisions as the
action's data. -/
def splitIntoPaths (run : Run) (actionName : String) (params : List PathParam)
    (eval : PathParam → JVal → Except String (JVal × JVal)) (now : Nat) : Run × JVal :=
  let pairs := params.map (splitEntry run.getStepsOutput eval)
  (run.startActionPathsStep actionName (pairs.map Prod.fst) now,
   .obj (objOfPairs (pairs.map Prod.snd)))

/-- Strict check `result && typeof result === 'object' && 'canContinue' in result
&& result.canContinue === true` used by executePaths on `data[path.name]`. -/
def canContinueTrueAt (data : JVal) (name : String) : Bool :=
  match getKey data name with
  | some v =>
    match getKey v "canContinue" with
    | some (.bool true) => true
    | _ => false
  | none => false

/-- Strict check `path.output.canContinue === false` used by runAction on the
recorded paths step. -/
def canContinueFalse (out : JVal) : Bool :=
  match getKey out "canContinue" with
  | some (.bool false) => true
  | _ => false

/-- RunAutomationUseCase.executePaths: walk the declared paths in order; for a
path whose decision in `data` is strictly `canContinue === true`, recursively
execute it (`exec` abstracts the recursive `this.execute` call, returning the
mutated run and the error it threw, if any); a failure is recorded and the
remaining paths still run; after the loop the first failure is rethrown as
`Path failure: <message>`. -/
def executePaths (exec : String → Run → Run × Option ErrV) (run : Run)
    (parentPath : Option String) (actionName : String) (params : List PathParam)
    (data : JVal) : Run × Option ErrV :=
  match params with
  | [] => (run, none)
  | p :: rest =>
    let nextPathName := (match parentPath with
      | some pn => pn ++ "."
      | none => "") ++ actionName ++ "." ++ p.name
    if canContinueTrueAt data p.name then
      let (run', err?) := exec nextPathName run
      let (run'', laterErr?) := executePaths exec run' parentPath actionName rest data
      match err? with
      | some e => (run'', some ⟨"Path failure: " ++ e.message⟩)
      | none => (run'', laterErr?)
    else
      executePaths exec run parentPath actionName rest data

/-- Outcome of the non-array `split-into-paths` tail of runAction: the mutated
run, whether an alert email was sent, and the returned continuation flag. -/
structure SplitPostResult where
  run : Run
  alerted : Bool
  shouldContinue : Bool
  deriving Repr

/-- Scan a recorded paths step for the first path containing an action error,
returning that error (the `failedPath` / `failedAction` lookups of runAction). -/
def firstPathError (entries : List PathEntry) : Option ErrV :=
  match entries.find? (fun en => en.actions.any stepHasDirectError) with
  | none => none
  | some en =>
    match en.actions.find? stepHasDirectError with
    | some (.action _ _ _ _ (some e) _) => some e
    | _ => none

/-- The non-array branch of RunAutomationUseCase.runAction for a
`split-into-paths` action (form.schema.ts): record the action's data with
`successActionStep` + update, execute the paths, and then inspect the recorded
paths step — if a path execution threw, stop the run with a
`Path failure in multi-step execution` service error; otherwise, if every
path's filter said `canContinue === false`, filter the run; if some nested
action recorded an error, stop the run with that error's message; else
continue. `stop` raises an alert; `filter` does not. -/
def runActionSplit (run : Run) (parentPath : Option String) (actionName : String)
    (params : List PathParam) (data : JVal) (exec : String → Run → Run × Option ErrV)
    (now : Nat) : Except String SplitPostResult :=
  let actionPath := (match parentPath with
    | some pn => pn ++ "."
    | none => "") ++ actionName
  match run.successActionStep actionPath data now with
  | .error e => .error e
  | .ok r1 =>
    let (r2, pathErr?) := executePaths exec r1 parentPath actionName params data
    match pathErr? with
    | some e => do
      let r3 ← r2.stopActionStep actionPath
        ⟨"Path failure in multi-step execution: " ++ e.message⟩ now
      .ok ⟨r3, true, false⟩
    | none =>
      match r2.getActionOrPathsStep actionPath with
      | .ok (some (.paths _ _ entries _)) =>
        if entries.all (fun en => canContinueFalse en.output) then do
          let r3 ← r2.filterActionStep actionPath data now
          .ok ⟨r3, false, false⟩
        else if entries.any (fun en => en.actions.any stepHasDirectError) then do
          let msg := match firstPathError entries with
            | some e => "Path failure in multi-step execution: " ++ e.message
            | none => "Path failure in multi-step execution"
          let r3 ← r2.stopActionStep actionPath ⟨msg⟩ now
          .ok ⟨r3, true, false⟩
        else .ok ⟨r2, false, true⟩
      | _ => .ok ⟨r2, false, true⟩

/-! Spec-side definitions: these follow the wording of the specification /
claims, for comparison against the embedded code. -/

mutual
/-- Claim-side predicate (spec §8, testable property for
`isStepExecutedWithSuccess`): a step has a recorded error directly or, for a
paths step, in some leaf action nested anywhere under any of its paths. -/
def stepHasErrorDeep : Step → Bool
  | .action _ _ _ _ e _ => e.isSome
  | .paths _ _ es _ => entriesHaveErrorDeep es
  | .trigger _ => false
def entriesHaveErrorDeep : List PathEntry → Bool
  | [] => false
  | .mk _ _ _ _ acts :: rest => stepsHaveErrorDeep acts || entriesHaveErrorDeep rest
def stepsHaveErrorDeep : List Step → Bool
  | [] => false
  | s :: rest => stepHasErrorDeep s || stepsHaveErrorDeep rest
end

mutual
/-- Claim-side function (spec §4.2 `getErrorMessage`): depth-first search for
the first recorded error among the given steps in order, recursing into every
path of a paths step and continuing with later siblings when a subtree is
error-free. -/
def dfsFirstError : List Step → Option ErrV
  | [] => none
  | s :: rest =>
    match dfsStepError s with
    | some e => some e
    | none => dfsFirstError rest
def dfsStepError : Step → Option ErrV
  | .action _ _ _ _ (some e) _ => some e
  | .action _ _ _ _ none _ => none
  | .trigger _ => none
  | .paths _ _ es _ => dfsEntriesError es
def dfsEntriesError : List PathEntry → Option ErrV
  | [] => none
  | .mk _ _ _ _ acts :: rest =>
    match dfsFirstError acts with
    | some e => some e
    | none => dfsEntriesError rest
end

/-- Claim-side `getErrorMessage`: message of the first error found by a full
depth-first search of the non-trigger steps. -/
def Run.getErrorMessageDfs (r : Run) : Option String :=
  (dfsFirstError (r.steps.drop 1)).map ErrV.message

/-- Claim-side success shape for a step found by `isStepExecutedWithSuccess`
as the source checks it: an action step with its `error` field unset, or a
paths step none of whose paths' direct actions carries an error. -/
def stepShallowSuccess : Step → Prop
  | .action _ _ _ _ err _ => err = none
  | .trigger out => out.isSome = true
  | .paths _ _ entries _ => ∀ en ∈ entries, ∀ a ∈ en.actions, stepHasDirectError a = false

def isPathsStep : Step → Bool
  | .paths _ _ _ _ => true
  | _ => false

/-- Direct error of a step, as a search visitor would read it. -/
def directErrOf : Step → Option ErrV
  | .action _ _ _ _ (some e) _ => some e
  | _ => none

/-- First recorded action error in a flat list of steps, in order. -/
def firstActionError (l : List Step) : Option ErrV := l.findSome? directErrOf

/-- Output of the first step a single-segment path resolves to, when that step
is an action step. -/
def outputAtName (r : Run) (n : String) : Option JVal :=
  match r.getActionOrPathsStep n with
  | .ok (some (.action _ _ _ out _ _)) => out
  | _ => none

/-! List-surgery lemmas relating lookup and reference mutation. -/

theorem modifyFirstO_of_find?_none {p : α → Bool} {f : α → α} :
    ∀ {l : List α}, l.find? p = none → modifyFirstO p f l = none := by
  intro l
  induction l with
  | nil => intro _; rfl
  | cons a t ih =>
    intro h
    rw [List.find?_cons] at h
    by_cases hp : p a
    · simp [hp] at h
    · simp [hp] at h
      have h' : t.find? p = none := List.find?_eq_none.mpr (fun x hx => by simp [h x hx])
      simp [modifyFirstO, hp, ih h']

theorem modifyFirstO_of_find?_some {p : α → Bool} {f : α → α} :
    ∀ {l : List α} {a : α}, l.find? p = some a →
      modifyFirstO p f l = some (modifyFirst p f l) := by
  intro l
  induction l with
  | nil => intro a h; simp [List.find?] at h
  | cons b t ih =>
    intro a h
    rw [List.find?_cons] at h
    by_cases hp : p b
    · simp [hp] at h
      simp [modifyFirstO, modifyFirst, hp]
    · simp [hp] at h
      simp [modifyFirstO, modifyFirst, hp, ih h]

theorem find?_modifyFirst {p : α → Bool} {f : α → α} (hf : ∀ a, p (f a) = p a) :
    ∀ {l : List α} {a : α}, l.find? p = some a →
      (modifyFirst p f l).find? p = some (f a) := by
  intro l
  induction l with
  | nil => intro a h; simp [List.find?] at h
  | cons b t ih =>
    intro a h
    rw [List.find?_cons] at h
    by_cases hp : p b
    · simp [hp] at h
      subst h
      simp [modifyFirst, hp, List.find?_cons, hf b]
    · simp [hp] at h
      simp [modifyFirst, hp, List.find?_cons, ih h]

theorem find?_append_none {p : α → Bool} :
    ∀ {l1 l2 : List α}, l1.find? p = none → (l1 ++ l2).find? p = l2.find? p := by
  intro l1 l2
  induction l1 with
  | nil => intro _; rfl
  | cons a t ih =>
    intro h
    rw [List.find?_cons] at h
    by_cases hp : p a
    · simp [hp] at h
    · simp [hp] at h
      have h' : t.find? p = none := List.find?_eq_none.mpr (fun x hx => by simp [h x hx])
      simp [List.find?_cons, hp, ih h']

theorem countP_modifyFirst {p q : α → Bool} {f : α → α} (hf : ∀ a, q (f a) = q a) :
    ∀ l : List α, (modifyFirst p f l).countP q = l.countP q := by
  intro l
  induction l with
  | nil => rfl
  | cons a t ih =>
    by_cases hp : p a
    · simp [modifyFirst, hp, List.countP_cons, hf a]
    · simp [modifyFirst, hp, List.countP_cons, ih]

/-! Object field lemmas. -/

theorem getKeyFields_setKey_self (o : List (String × JVal)) (k : String) (v : JVal) :
    getKeyFields (setKey o k v) k = some v := by
  induction o with
  | nil => simp [setKey, getKeyFields]
  | cons kv rest ih =>
    obtain ⟨k', v'⟩ := kv
    by_cases hk : k' = k
    · simp [setKey, hk, getKeyFields]
    · simp [setKey, hk, getKeyFields, ih]

theorem getKeyFields_setKey_other (o : List (String × JVal)) (k k' : String) (v : JVal)
    (hk : k ≠ k') : getKeyFields (setKey o k' v) k = getKeyFields o k := by
  have hk' : ¬ (k' = k) := fun h => hk h.symm
  induction o with
  | nil => simp [setKey, getKeyFields, hk']
  | cons kv rest ih =>
    obtain ⟨k0, v0⟩ := kv
    by_cases h0 : k0 = k'
    · subst h0
      simp [setKey, getKeyFields, hk']
    · simp [setKey, h0, getKeyFields, ih]

/-! Lemmas on the getStepsOutput reducer. -/

theorem getKeyFields_buildOutputGo_not_named (n : String) :
    ∀ (steps : List Step) (acc : List (String × JVal)),
      (∀ s ∈ steps, stepMatches n s = false) →
      getKeyFields (buildOutputGo acc steps) n = getKeyFields acc n := by
  intro steps
  induction steps with
  | nil => intro acc _; simp [buildOutputGo]
  | cons s rest ih =>
    intro acc h
    have hs := h s (by simp)
    have hrest : ∀ s' ∈ rest, stepMatches n s' = false := fun s' hs' => h s' (by simp [hs'])
    cases s with
    | trigger out => simp [buildOutputGo, ih _ hrest]
    | action nm st i o e f =>
      have hb : (nm == n) = false := by simpa [stepMatches] using hs
      have hnm : n ≠ nm := fun hh => by simp [hh] at hb
      rw [buildOutputGo, ih _ hrest, getKeyFields_setKey_other _ _ _ _ hnm]
    | paths nm st es f =>
      have hb : (nm == n) = false := by simpa [stepMatches] using hs
      have hnm : n ≠ nm := fun hh => by simp [hh] at hb
      rw [buildOutputGo, ih _ hrest, getKeyFields_setKey_other _ _ _ _ hnm]

theorem getKeyFields_buildOutputGo_found (n : String) :
    ∀ (steps : List Step) (acc : List (String × JVal)) (st : Nat) (i : JVal)
      (out : Option JVal) (e : Option ErrV) (f : Option Nat),
      steps.find? (stepMatches n) = some (.action n st i out e f) →
      steps.countP (fun s => stepMatches n s) = 1 →
      getKeyFields (buildOutputGo acc steps) n = some (out.getD (.obj [])) := by
  intro steps
  induction steps with
  | nil => intro acc st i out e f hfind _; simp [List.find?] at hfind
  | cons s rest ih =>
    intro acc st i out e f hfind hcount
    rw [List.find?_cons] at hfind
    rw [List.countP_cons] at hcount
    by_cases hp : stepMatches n s
    · simp only [hp] at hfind
      rw [if_pos hp] at hcount
      have hzero : rest.countP (fun s => stepMatches n s) = 0 := by omega
      have hrest : ∀ s' ∈ rest, stepMatches n s' = false := by
        intro s' hs'
        have := List.countP_eq_zero.mp hzero s' hs'
        simpa using this
      have hstep : s = Step.action n st i out e f := by
        injection hfind
      subst hstep
      rw [buildOutputGo, getKeyFields_buildOutputGo_not_named n rest _ hrest]
      exact getKeyFields_setKey_self _ _ _
    · rw [Bool.not_eq_true] at hp
      simp only [hp] at hfind
      rw [if_neg (by simp [hp])] at hcount
      simp only [Nat.add_zero] at hcount
      cases s with
      | trigger o =>
        rw [buildOutputGo]
        exact ih acc st i out e f hfind hcount
      | action nm st' i' o' e' f' =>
        have hb : (nm == n) = false := by simpa [stepMatches] using hp
        have hnm : n ≠ nm := fun hh => by simp [hh] at hb
        rw [buildOutputGo]
        exact ih _ st i out e f hfind hcount
      | paths nm st' es f' =>
        rw [buildOutputGo]
        exact ih _ st i out e f hfind hcount

/-- getStepsOutput exposes, under a step's name, the recorded output of the
unique action step carrying that name. -/
theorem getKey_getStepsOutput (r : Run) (w : Option JVal) (acts : List Step)
    (n : String) (st : Nat) (i : JVal) (out : JVal) (e : Option ErrV) (f : Option Nat)
    (hsteps : r.steps = Step.trigger w :: acts)
    (hn : n ≠ "trigger")
    (hfind : acts.find? (stepMatches n) = some (.action n st i (some out) e f))
    (hcount : acts.countP (fun s => stepMatches n s) = 1) :
    getKey r.getStepsOutput n = some out := by
  rw [Run.getStepsOutput, hsteps]
  have := getKeyFields_buildOutputGo_found n acts [] st i (some out) e f hfind hcount
  simp [getKey, getKeyFields_setKey_other _ _ _ _ hn, this]

/-! Shape preservation of the step mutators used through lookup references. -/

theorem stepMatches_setOutput (nm : String) (s : Step) (v : JVal) :
    stepMatches nm (setOutput s v) = stepMatches nm s := by
  cases s <;> rfl

theorem stepMatches_setError (nm : String) (s : Step) (e : ErrV) :
    stepMatches nm (setError s e) = stepMatches nm s := by
  cases s <;> rfl

theorem stepMatches_setFinished (nm : String) (s : Step) (t : Nat) :
    stepMatches nm (setFinished s t) = stepMatches nm s := by
  cases s <;> rfl

theorem stepMatches_setPathActions (nm p : String) (acts : List Step) (s : Step) :
    stepMatches nm (setPathActions p acts s) = stepMatches nm s := by
  cases s <;> rfl

theorem pathEntryName_setActions (en : PathEntry) (acts : List Step) :
    (en.setActions acts).name = en.name := by
  cases en
  rfl

/-! Single-segment paths: lookup and mutation against the top-level steps. -/

theorem getActionOrPathsStep_single (r : Run) (name : String)
    (hsplit : splitDots name = [name]) :
    r.getActionOrPathsStep name = .ok (r.steps.find? (stepMatches name)) := by
  rw [Run.getActionOrPathsStep, hsplit]
  rfl

theorem mutateSegs_single (r : Run) (name : String) (f : Step → Step) :
    r.mutateSegs [name] f = .ok (modifyFirstO (stepMatches name) f r.steps) := by
  rfl

theorem successActionStep_spec (r : Run) (name : String) (v : JVal) (t : Nat) (s : Step)
    (hsplit : splitDots name = [name])
    (hfind : r.steps.find? (stepMatches name) = some s) :
    r.successActionStep name v t =
      .ok { r with
        steps := modifyFirst (stepMatches name) (fun s' => setFinished (setOutput s' v) t) r.steps,
        updatedAt := t } := by
  rw [Run.successActionStep, hsplit, mutateSegs_single,
    modifyFirstO_of_find?_some hfind]

theorem find?_success (r : Run) (name : String) (v : JVal) (t : Nat) (s : Step)
    (hfind : r.steps.find? (stepMatches name) = some s) :
    (modifyFirst (stepMatches name) (fun s' => setFinished (setOutput s' v) t) r.steps).find?
        (stepMatches name) = some (setFinished (setOutput s v) t) :=
  find?_modifyFirst
    (fun a => by rw [stepMatches_setFinished, stepMatches_setOutput]) hfind

/-- After a single-segment `successActionStep` over an action step, the step's
recorded output is the written value. -/
theorem outputAtName_success (r : Run) (name : String) (v : JVal) (t : Nat)
    (st : Nat) (i : JVal) (o0 : Option JVal) (e0 : Option ErrV) (f0 : Option Nat)
    (hsplit : splitDots name = [name])
    (hfind : r.steps.find? (stepMatches name) = some (.action name st i o0 e0 f0)) :
    ∃ r', r.successActionStep name v t = .ok r' ∧
      outputAtName r' name = some v ∧
      r'.automation_id = r.automation_id ∧ r'.status = r.status ∧
      r'.id = r.id ∧ r'.updatedAt = t ∧
      r'.steps = modifyFirst (stepMatches name)
        (fun s' => setFinished (setOutput s' v) t) r.steps := by
  refine ⟨_, successActionStep_spec r name v t _ hsplit hfind, ?_, rfl, rfl, rfl, rfl, rfl⟩
  have hga : ({ r with
      steps := modifyFirst (stepMatches name) (fun s' => setFinished (setOutput s' v) t) r.steps,
      updatedAt := t } : Run).getActionOrPathsStep name =
      .ok (some (Step.action name st i (some v) e0 (some t))) := by
    rw [getActionOrPathsStep_single _ _ hsplit]
    have hsteps : ({ r with
        steps := modifyFirst (stepMatches name) (fun s' => setFinished (setOutput s' v) t) r.steps,
        updatedAt := t } : Run).steps =
        modifyFirst (stepMatches name) (fun s' => setFinished (setOutput s' v) t) r.steps := rfl
    rw [hsteps, find?_success r name v t _ hfind]
    rfl
  simp [outputAtName, hga]

/-- A single-segment `successActionStep` over a recorded paths step only stamps
`finishedAt` (a paths step has no `output` key), leaving its entries intact. -/
theorem success_on_paths_spec (r : Run) (name : String) (v : JVal) (t : Nat)
    (st : Nat) (entries : List PathEntry) (fin : Option Nat)
    (hsplit : splitDots name = [name])
    (hfind : r.steps.find? (stepMatches name) = some (.paths name st entries fin)) :
    ∃ r', r.successActionStep name v t = .ok r' ∧
      r'.status = r.status ∧ r'.automation_id = r.automation_id ∧
      r'.steps.find? (stepMatches name) = some (.paths name st entries (some t)) := by
  refine ⟨_, successActionStep_spec r name v t _ hsplit hfind, rfl, rfl, ?_⟩
  have := find?_success r name v t _ hfind
  simpa [setOutput, setFinished] using this

/-- Run.filterActionStep on a playing run whose single-segment lookup succeeds. -/
theorem filterActionStep_spec (r : Run) (name : String) (v : JVal) (t : Nat) (s : Step)
    (hsplit : splitDots name = [name])
    (hstatus : r.status = RunStatus.playing)
    (hfind : r.steps.find? (stepMatches name) = some s) :
    r.filterActionStep name v t =
      .ok { r with
        steps := modifyFirst (stepMatches name) (fun s' => setFinished (setOutput s' v) t) r.steps,
        updatedAt := t,
        status := RunStatus.filtered } := by
  rw [Run.filterActionStep, if_pos hstatus, hsplit, mutateSegs_single,
    modifyFirstO_of_find?_some hfind]

/-- When no declared path's decision is strictly `canContinue === true`,
executePaths touches nothing and throws nothing. -/
theorem executePaths_skip (exec : String → Run → Run × Option ErrV) (run : Run)
    (parentPath : Option String) (actionName : String) (data : JVal) :
    ∀ params : List PathParam,
      (∀ p ∈ params, canContinueTrueAt data p.name = false) →
      executePaths exec run parentPath actionName params data = (run, none) := by
  intro params
  induction params with
  | nil => intro _; rfl
  | cons p ps ih =>
    intro h
    have hp := h p (by simp)
    have hps : ∀ q ∈ ps, canContinueTrueAt data q.name = false :=
      fun q hq => h q (by simp [hq])
    simp [executePaths, hp, ih hps]

/-! Lemmas on the getError traversal. -/

theorem getErr_no_paths :
    ∀ l : List Step, (∀ s ∈ l, isPathsStep s = false) →
      getErr l = firstActionError l := by
  intro l
  induction l with
  | nil => intro _; simp [getErr, firstActionError]
  | cons s rest ih =>
    intro h
    have hrest : ∀ s' ∈ rest, isPathsStep s' = false := fun s' hs' => h s' (by simp [hs'])
    cases s with
    | trigger o => simp [getErr, firstActionError, List.findSome?_cons, directErrOf, ih hrest]
    | action nm st i o e f =>
      cases e with
      | none => simp [getErr, firstActionError, List.findSome?_cons, directErrOf, ih hrest]
      | some e' => simp [getErr, firstActionError, List.findSome?_cons, directErrOf]
    | paths nm st es f =>
      have := h _ (by simp : Step.paths nm st es f ∈ Step.paths nm st es f :: rest)
      simp [isPathsStep] at this

/-- The traversal returns upon meeting the first paths step: everything after
it in the list is ignored, whatever it contains. -/
theorem getErr_stops_at_paths :
    ∀ (pre : List Step) (nm : String) (st : Nat) (entries : List PathEntry)
      (fin : Option Nat) (post : List Step),
      (∀ s ∈ pre, isPathsStep s = false) →
      getErr (pre ++ Step.paths nm st entries fin :: post) =
        (match firstActionError pre with
         | some e => some e
         | none => getErr (entries.flatMap PathEntry.actions)) := by
  intro pre
  induction pre with
  | nil => intro nm st entries fin post _; simp [getErr, firstActionError]
  | cons s rest ih =>
    intro nm st entries fin post h
    have hrest : ∀ s' ∈ rest, isPathsStep s' = false := fun s' hs' => h s' (by simp [hs'])
    cases s with
    | trigger o =>
      simp only [List.cons_append, getErr]
      rw [ih nm st entries fin post hrest]
      simp [firstActionError, List.findSome?_cons, directErrOf]
    | action nm' st' i o e f =>
      cases e with
      | none =>
        simp only [List.cons_append, getErr]
        rw [ih nm st entries fin post hrest]
        simp [firstActionError, List.findSome?_cons, directErrOf]
      | some e' =>
        simp [getErr, firstActionError, List.findSome?_cons, directErrOf]
    | paths nm' st' es f =>
      have := h _ (by simp : Step.paths nm' st' es f ∈ Step.paths nm' st' es f :: rest)
      simp [isPathsStep] at this

/-- When a dotted path resolves to no step, the mutation walk also reaches no
step (read and write follow the same resolution). -/
theorem mutateSegs_none_aux (r : Run) (f : Step → Step) :
    ∀ (n : Nat) (segs : List String), segs.length ≤ n →
      r.getSegs segs none = .ok none → r.mutateSegs segs f = .ok none := by
  intro n
  induction n with
  | zero =>
    intro segs hlen hget
    have hnil : segs = [] := List.length_eq_zero.mp (Nat.le_zero.mp hlen)
    subst hnil
    simp only [Run.getSegs, Option.getD] at hget
    have hfind : r.steps.find? (stepMatches (([] : List String).headD "")) = none := by
      injection hget
    simp [Run.mutateSegs, modifyFirstO_of_find?_none (show r.steps.find? (stepMatches "") = none by simpa using hfind)]
  | succ n ih =>
    intro segs hlen hget
    cases segs with
    | nil =>
      simp only [Run.getSegs, Option.getD] at hget
      have hfind : r.steps.find? (stepMatches (([] : List String).headD "")) = none := by
        injection hget
      simp [Run.mutateSegs, modifyFirstO_of_find?_none (show r.steps.find? (stepMatches "") = none by simpa using hfind)]
    | cons a segs1 =>
      cases segs1 with
      | nil =>
        simp only [Run.getSegs, Option.getD] at hget
        have hfind : r.steps.find? (stepMatches (([a] : List String).headD "")) = none := by
          injection hget
        simp [Run.mutateSegs, modifyFirstO_of_find?_none (show r.steps.find? (stepMatches a) = none by simpa using hfind)]
      | cons p rest =>
        cases hfa : r.steps.find? (stepMatches a) with
        | none => simp [Run.mutateSegs, hfa]
        | some s =>
          cases s with
          | trigger o => simp [Run.mutateSegs, hfa]
          | action nm st i o e fin => simp [Run.mutateSegs, hfa]
          | paths nm st es fin =>
            cases hfp : es.find? (fun en => en.name == p) with
            | none => simp [Run.getSegs, hfa, hfp] at hget
            | some en =>
              cases rest with
              | nil => simp [Run.getSegs, hfa, hfp] at hget
              | cons c rest2 =>
                cases rest2 with
                | nil =>
                  simp only [Run.getSegs, hfa, hfp] at hget
                  simp only [Run.getSegs, Option.getD] at hget
                  have hfind : en.actions.find? (stepMatches (([c] : List String).headD "")) = none := by
                    injection hget
                  simp [Run.mutateSegs, hfa, hfp,
                    modifyFirstO_of_find?_none (show en.actions.find? (stepMatches c) = none by simpa using hfind)]
                | cons d rest3 =>
                  simp only [Run.getSegs, hfa, hfp] at hget
                  have hget' : r.getSegs (c :: d :: rest3) none = .ok none := hget
                  have hlen' : (c :: d :: rest3).length ≤ n := by
                    simp at hlen ⊢
                    omega
                  have := ih (c :: d :: rest3) hlen' hget'
                  simpa [Run.mutateSegs, hfa, hfp] using this

theorem mutateSegs_none (r : Run) (f : Step → Step) (segs : List String)
    (hget : r.getSegs segs none = .ok none) : r.mutateSegs segs f = .ok none :=
  mutateSegs_none_aux r f segs.length segs (Nat.le_refl _) hget

/-- Each clone created by the fan-out loop is the current run under a fresh id
with the step output overwritten by its own 1-based-indexed element. -/
theorem fanClones_spec :
    ∀ (rest : List JVal) (cur : Run) (name : String) (ids : Nat → String) (t j0 : Nat)
      (st : Nat) (i : JVal) (o0 : Option JVal) (e0 : Option ErrV) (f0 : Option Nat),
      splitDots name = [name] →
      cur.steps.find? (stepMatches name) = some (.action name st i o0 e0 f0) →
      ∃ cs, fanClones cur name rest ids t j0 = .ok cs ∧ cs.length = rest.length ∧
        (∀ j c, cs.get? j = some c → ∃ x, rest.get? j = some x ∧
          c.automation_id = cur.automation_id ∧ c.id = ids (j0 + j) ∧
          c.status = cur.status ∧
          outputAtName c name = some (withIndex x (j0 + j + 2))) := by
  intro rest
  induction rest with
  | nil =>
    intro cur name ids t j0 st i o0 e0 f0 _ _
    refine ⟨[], rfl, rfl, ?_⟩
    intro j c hc
    simp at hc
  | cons x xs ih =>
    intro cur name ids t j0 st i o0 e0 f0 hsplit hfind
    have hclone : (cur.clone (ids j0)).steps.find? (stepMatches name) =
        some (.action name st i o0 e0 f0) := hfind
    obtain ⟨c, hsuc, hout, haut, hstat, hid, _, _⟩ :=
      outputAtName_success (cur.clone (ids j0)) name (withIndex x (j0 + 2)) t
        st i o0 e0 f0 hsplit hclone
    obtain ⟨cs, hrec, hlen, hprops⟩ := ih cur name ids t (j0 + 1) st i o0 e0 f0 hsplit hfind
    refine ⟨c :: cs, ?_, by simp [hlen], ?_⟩
    · simp only [fanClones, hsuc, hrec]
      rfl
    · intro j c' hc'
      cases j with
      | zero =>
        simp at hc'
        subst hc'
        exact ⟨x, rfl, by simpa [Run.clone] using haut,
          by simpa [Run.clone] using hid,
          by simpa [Run.clone] using hstat, hout⟩
      | succ j' =>
        simp only [List.get?_cons_succ] at hc' ⊢
        obtain ⟨x', hx', h1, h2, h3, h4⟩ := hprops j' c' hc'
        refine ⟨x', hx', h1, ?_, h3, ?_⟩
        · rw [h2]
          congr 1
          omega
        · rw [h4]
          congr 2
          omega

/-! Concrete runs and inputs used by counterexamples and witnesses. -/

def errBoom : ErrV := ⟨"boom"⟩

/-- Nested paths step `b` (inside path `a.p`) whose path `q` holds a failed
action `c`. -/
def stepB : Step :=
  .paths "b" 0 [.mk "q" .null .null (.obj [("canContinue", .bool true)])
    [.action "c" 0 .null none (some errBoom) none]] none

/-- Top-level paths step `a` whose single path `p` contains only `stepB`. -/
def stepA : Step :=
  .paths "a" 0 [.mk "p" .null .null (.obj [("canContinue", .bool true)]) [stepB]] none

/-- Run whose only non-trigger step is `stepA`: every recorded error lives two
nesting levels down, and no step named `b` exists at top level. -/
def runNested : Run :=
  { automation_id := 1, steps := [.trigger (some (.obj [("y", .num 2)])), stepA],
    form_id := none, status := RunStatus.playing, id := "run-nested",
    createdAt := 0, updatedAt := 0, toReplay := false }

/-- Run with one started (unfinished) top-level action step `a`. -/
def runA : Run :=
  { automation_id := 7, steps := [.trigger (some (.obj [("y", .num 2)])),
      .action "a" 0 .null none none none],
    form_id := none, status := RunStatus.playing, id := "run-a",
    createdAt := 0, updatedAt := 0, toReplay := false }

def runSuccessEx : Run := { runA with status := RunStatus.success }

def runStoppedEx : Run := { runA with status := RunStatus.stopped }

def runFilteredEx : Run := { runA with status := RunStatus.filtered }

/-! ### C1 — isStepExecutedWithSuccess -/

/-- C1, counterexample: for the paths step `a` of `runNested`, the only
recorded error sits on a leaf action nested inside a deeper paths step, yet
`isStepExecutedWithSuccess('a')` answers `true` — the source only inspects the
direct actions of each path, so the claimed deep search does not happen. -/
theorem c1_deep_error_invisible :
    runNested.isStepExecutedWithSuccess "a" = .ok true ∧
    runNested.getActionOrPathsStep "a" = .ok (some stepA) ∧
    stepHasErrorDeep stepA = true := by
  refine ⟨rfl, rfl, ?_⟩
  simp [stepHasErrorDeep, entriesHaveErrorDeep, stepsHaveErrorDeep, stepA, stepB,
    stepHasDirectError]

/-- C1, amended: `isStepExecutedWithSuccess(path)` answers `true` iff the path
resolves to a step and that step carries no error one level deep — an action
step's own `error` is unset, or, for a paths step, no direct action of any of
its paths has an error (errors inside deeper nested paths steps are invisible
to it); when the lookup finds no step it answers `false`. -/
theorem c1_shallow_success_iff (r : Run) (path : String) :
    (r.isStepExecutedWithSuccess path = .ok true ↔
      ∃ s, r.getActionOrPathsStep path = .ok (some s) ∧ stepShallowSuccess s) ∧
    (r.getActionOrPathsStep path = .ok none →
      r.isStepExecutedWithSuccess path = .ok false) := by
  constructor
  · rw [Run.isStepExecutedWithSuccess]
    cases hga : r.getActionOrPathsStep path with
    | error e => simp
    | ok os =>
      cases os with
      | none => simp
      | some s =>
        cases s with
        | trigger out => simp [stepShallowSuccess]
        | action nm st i o e f =>
          simp [stepShallowSuccess, Option.isNone_iff_eq_none]
        | paths nm st entries f =>
          simp [stepShallowSuccess, List.any_eq_false, stepHasDirectError]
  · intro h
    rw [Run.isStepExecutedWithSuccess, h]

/-- C1, witness for the amended characterization at a concrete run. -/
theorem c1_shallow_success_witness :
    runA.isStepExecutedWithSuccess "a" = .ok true := by
  have h := (c1_shallow_success_iff runA "a").1
  exact h.mpr ⟨.action "a" 0 .null none none none, rfl, rfl⟩

/-! ### C2 — dotted-path addressing round trip -/

/-- C2, counterexample: in `runNested` the dotted path `a.p.b.q.c` has every
intermediate pair naming an existing nested paths step and path (`a.p` exists,
and `a.p.b` resolves to the nested paths step `b` with its path `q`), yet
`startActionStep` throws `Action step "b" not found` — after the first
`(action, path)` pair both reader and writer restart from the top-level steps,
where no `b` exists — and the read of the full path finds nothing either. -/
theorem c2_deep_path_not_resolved :
    runNested.startActionStep "a.p.b.q.c" "c" .null 1 =
      .error "Action step \"b\" not found" ∧
    runNested.getActionOrPathsStep "a.p.b" = .ok (some stepB) ∧
    runNested.getActionOrPathsStep "a.p.b.q.c" = .ok none := by
  exact ⟨rfl, rfl, rfl⟩

/-- C2, amended: the round trip holds for one nesting level — for a three
segment path `a.p.c` whose first segment resolves to a top-level paths step
with a path named `p` not already containing a step named `c`,
`startActionStep` appends the new unfinished action step to that path's
actions and `getActionOrPathsStep` immediately resolves the same path to that
step. Beyond one level, both read and write restart resolution from the
top-level steps once the leading `(actionName, pathName)` pair is consumed, so
deeper segments address top-level paths steps (and `startActionStep` throws
when the restarted lookup fails), read and write staying symmetric. -/
theorem c2_roundtrip_one_level (r : Run) (a p c path : String) (input : JVal)
    (now st : Nat) (entries : List PathEntry) (fin : Option Nat) (en : PathEntry)
    (hsplit : splitDots path = [a, p, c])
    (hfind : r.steps.find? (stepMatches a) = some (.paths a st entries fin))
    (hentry : entries.find? (fun en' => en'.name == p) = some en)
    (hfresh : en.actions.find? (stepMatches c) = none) :
    (∃ r', r.startActionStep path c input now = .ok r' ∧
      r'.steps = modifyFirst (stepMatches a)
        (setPathActions p (en.actions ++ [Step.action c now input none none none])) r.steps ∧
      r'.getActionOrPathsStep path = .ok (some (Step.action c now input none none none))) ∧
    (∀ (d e' : String) (rest : List String),
      r.startSegs (a :: p :: d :: e' :: rest) c input now =
        r.startSegs (d :: e' :: rest) c input now ∧
      r.getSegs (a :: p :: d :: e' :: rest) none =
        r.getSegs (d :: e' :: rest) none) := by
  constructor
  · refine ⟨{ r with
      steps := modifyFirst (stepMatches a)
        (setPathActions p (en.actions ++ [Step.action c now input none none none])) r.steps,
      updatedAt := now }, ?_, rfl, ?_⟩
    · rw [Run.startActionStep, hsplit]
      conv_lhs => rw [Run.startSegs.eq_def]
      simp [hfind, hentry]
    · rw [Run.getActionOrPathsStep, hsplit]
      have hfind' : (modifyFirst (stepMatches a)
          (setPathActions p (en.actions ++ [Step.action c now input none none none]))
          r.steps).find? (stepMatches a) =
          some (setPathActions p (en.actions ++ [Step.action c now input none none none])
            (.paths a st entries fin)) :=
        find?_modifyFirst (fun s => stepMatches_setPathActions a p _ s) hfind
      have hentry' : (modifyFirst (fun en' => en'.name == p)
          (fun en' => en'.setActions (en.actions ++ [Step.action c now input none none none]))
          entries).find? (fun en' => en'.name == p) =
          some (en.setActions (en.actions ++ [Step.action c now input none none none])) :=
        find?_modifyFirst (fun en' => by rw [pathEntryName_setActions]) hentry
      have hacts : (en.setActions
          (en.actions ++ [Step.action c now input none none none])).actions =
          en.actions ++ [Step.action c now input none none none] := by
        cases en
        rfl
      conv_lhs => rw [Run.getSegs.eq_def]
      simp only [hfind', setPathActions, hentry']
      conv_lhs => rw [Run.getSegs.eq_def]
      simp only [hacts, Option.getD, List.headD]
      rw [find?_append_none hfresh]
      simp [List.find?, stepMatches]
  · intro d e' rest
    constructor
    · conv_lhs => rw [Run.startSegs.eq_def]
      simp [hfind, hentry]
    · have h1 : r.getSegs (a :: p :: d :: e' :: rest) none =
          r.getSegs (d :: e' :: rest) (some en.actions) := by
        conv_lhs => rw [Run.getSegs.eq_def]
        simp [hfind, hentry]
      rw [h1]
      rfl

/-- C2, witness: the one-level round trip at a concrete run. -/
theorem c2_roundtrip_witness :
    (runNested.startActionStep "a.p.c" "c" JVal.null 1).map
      (fun r' => r'.getActionOrPathsStep "a.p.c") =
    .ok (.ok (some (Step.action "c" 1 JVal.null none none none))) := by
  obtain ⟨⟨r', h1, _, h3⟩, _⟩ :=
    c2_roundtrip_one_level runNested "a" "p" "c" "a.p.c" JVal.null 1 0 _ none
      (PathEntry.mk "p" JVal.null JVal.null (JVal.obj [("canContinue", JVal.bool true)]) [stepB])
      rfl rfl rfl rfl
  rw [h1]
  simp [Except.map, h3]

/-! ### C3 — run status state machine -/

/-- C3: `filterActionStep` moves only `playing → filtered` and is a no-op on
the run otherwise; `stopActionStep` moves only `playing/filtered → stopped`
and is refused (a no-op) from `success` (and from `stopped`); `runSucceed`
moves only `playing → success`. Hence `success` and `stopped` are never left
by these operations and `filtered` can only move to `stopped`. -/
theorem c3_status_machine (r : Run) (path : String) (v : JVal) (e : ErrV) (t : Nat) :
    (r.status ≠ RunStatus.playing → r.filterActionStep path v t = .ok r) ∧
    (∀ r', r.filterActionStep path v t = .ok r' →
      (r.status = RunStatus.playing ∧ r'.status = RunStatus.filtered) ∨
      (r.status ≠ RunStatus.playing ∧ r' = r)) ∧
    (r.status = RunStatus.success → r.stopActionStep path e t = .ok r) ∧
    (∀ r', r.stopActionStep path e t = .ok r' →
      ((r.status = RunStatus.playing ∨ r.status = RunStatus.filtered) ∧
        r'.status = RunStatus.stopped) ∨
      ((r.status = RunStatus.success ∨ r.status = RunStatus.stopped) ∧ r' = r)) ∧
    (r.status = RunStatus.playing → r.runSucceed.status = RunStatus.success) ∧
    (r.status ≠ RunStatus.playing → r.runSucceed = r) ∧
    (r.status = RunStatus.filtered →
      r.filterActionStep path v t = .ok r ∧ r.runSucceed = r ∧
      (∀ r', r.stopActionStep path e t = .ok r' → r'.status = RunStatus.stopped)) := by
  have hfilter_noop : r.status ≠ RunStatus.playing → r.filterActionStep path v t = .ok r := by
    intro h
    rw [Run.filterActionStep, if_neg h]
  have hfilter_fwd : ∀ r', r.filterActionStep path v t = .ok r' →
      (r.status = RunStatus.playing ∧ r'.status = RunStatus.filtered) ∨
      (r.status ≠ RunStatus.playing ∧ r' = r) := by
    intro r' h'
    by_cases hs : r.status = RunStatus.playing
    · left
      refine ⟨hs, ?_⟩
      rw [Run.filterActionStep, if_pos hs] at h'
      cases hm : r.mutateSegs (splitDots path)
          (fun s => setFinished (setOutput s v) t) with
      | error err => rw [hm] at h'; exact absurd h' (by simp)
      | ok os =>
        cases os with
        | none => rw [hm] at h'; exact absurd h' (by simp)
        | some steps =>
          rw [hm] at h'
          have := Except.ok.inj h'
          rw [← this]
    · right
      refine ⟨hs, ?_⟩
      rw [Run.filterActionStep, if_neg hs] at h'
      exact (Except.ok.inj h').symm
  have hstop_noop : ¬(r.status = RunStatus.playing ∨ r.status = RunStatus.filtered) →
      r.stopActionStep path e t = .ok r := by
    intro h
    rw [Run.stopActionStep, if_neg h]
  have hstop_fwd : ∀ r', r.stopActionStep path e t = .ok r' →
      ((r.status = RunStatus.playing ∨ r.status = RunStatus.filtered) ∧
        r'.status = RunStatus.stopped) ∨
      ((r.status = RunStatus.success ∨ r.status = RunStatus.stopped) ∧ r' = r) := by
    intro r' h'
    by_cases hs : r.status = RunStatus.playing ∨ r.status = RunStatus.filtered
    · left
      refine ⟨hs, ?_⟩
      rw [Run.stopActionStep, if_pos hs] at h'
      cases hm : r.mutateSegs (splitDots path)
          (fun s => setFinished (setError s e) t) with
      | error err => rw [hm] at h'; exact absurd h' (by simp)
      | ok os =>
        cases os with
        | none =>
          rw [hm] at h'
          have := Except.ok.inj h'
          rw [← this]
        | some steps =>
          rw [hm] at h'
          have := Except.ok.inj h'
          rw [← this]
    · right
      have hss : r.status = RunStatus.success ∨ r.status = RunStatus.stopped := by
        cases h : r.status <;> simp [h] at hs ⊢
      refine ⟨hss, ?_⟩
      rw [Run.stopActionStep, if_neg hs] at h'
      exact (Except.ok.inj h').symm
  refine ⟨hfilter_noop, hfilter_fwd, ?_, hstop_fwd, ?_, ?_, ?_⟩
  · intro h
    exact hstop_noop (by simp [h])
  · intro h
    rw [Run.runSucceed, if_pos h]
  · intro h
    rw [Run.runSucceed, if_neg h]
  · intro h
    refine ⟨hfilter_noop (by simp [h]), ?_, ?_⟩
    · rw [Run.runSucceed, if_neg (by simp [h])]
    · intro r' h'
      rcases hstop_fwd r' h' with ⟨_, hst⟩ | ⟨hc, _⟩
      · exact hst
      · rw [h] at hc
        rcases hc with hc | hc <;> exact absurd hc (by simp)

/-- C3, witness: the machine at concrete terminal runs — `success` refuses
both filter and stop, `stopped` refuses succeed, `filtered` refuses filter. -/
theorem c3_status_machine_witness :
    runSuccessEx.filterActionStep "a" JVal.null 1 = .ok runSuccessEx ∧
    runSuccessEx.stopActionStep "a" errBoom 1 = .ok runSuccessEx ∧
    runStoppedEx.runSucceed = runStoppedEx ∧
    runFilteredEx.filterActionStep "a" JVal.null 1 = .ok runFilteredEx := by
  have h1 := c3_status_machine runSuccessEx "a" JVal.null errBoom 1
  have h2 := c3_status_machine runStoppedEx "a" JVal.null errBoom 1
  have h3 := c3_status_machine runFilteredEx "a" JVal.null errBoom 1
  exact ⟨h1.1 (by decide), h1.2.2.1 (by decide), h2.2.2.2.2.2.1 (by decide),
    (h3.2.2.2.2.2.2 (by decide)).1⟩

/-! ### C6 — clone -/

/-- C6, amended: `clone` allocates only a fresh id; the step tree (as a value),
`automation_id`, `form_id`, status, `createdAt` and `updatedAt` are all taken
over from the original (timestamps are copied, not freshly allocated), and the
replay flag resets to the constructor default `false`. -/
theorem c6_clone_preserves (r : Run) (freshId : String) :
    (r.clone freshId).id = freshId ∧
    (r.clone freshId).automation_id = r.automation_id ∧
    (r.clone freshId).form_id = r.form_id ∧
    (r.clone freshId).status = r.status ∧
    (r.clone freshId).steps = r.steps ∧
    (r.clone freshId).createdAt = r.createdAt ∧
    (r.clone freshId).updatedAt = r.updatedAt ∧
    (r.clone freshId).toReplay = false :=
  ⟨rfl, rfl, rfl, rfl, rfl, rfl, rfl, rfl⟩

def runStampA : Run := { runA with createdAt := 3, updatedAt := 4 }

def runStampB : Run := { runA with createdAt := 7, updatedAt := 8 }

/-- C6, counterexample: two runs differing only in their timestamps produce
clones whose `createdAt`/`updatedAt` equal the respective originals' — the
clone's timestamps are inherited from the cloned run, not freshly allocated at
clone time as the claim states. -/
theorem c6_clone_timestamps_not_fresh :
    (runStampA.clone "fresh-id").createdAt = 3 ∧
    (runStampA.clone "fresh-id").updatedAt = 4 ∧
    (runStampB.clone "fresh-id").createdAt = 7 ∧
    (runStampB.clone "fresh-id").updatedAt = 8 :=
  ⟨rfl, rfl, rfl, rfl⟩

/-! ### C7 — stopActionStep on an unresolvable path -/

/-- C7, amended: from `playing` or `filtered`, `stopActionStep` on a path that
resolves to no step still flips the status to `stopped` and advances
`updatedAt`, but it records the error nowhere: no synthetic `execution`
pseudo-step is created, the step list is unchanged, and `getErrorMessage()`
is exactly what it was before, so the error is lost. -/
theorem c7_stop_unresolved_path (r : Run) (path : String) (e : ErrV) (t : Nat)
    (hstatus : r.status = RunStatus.playing ∨ r.status = RunStatus.filtered)
    (hnone : r.getActionOrPathsStep path = .ok none) :
    r.stopActionStep path e t =
      .ok { r with status := RunStatus.stopped, updatedAt := t } ∧
    ({ r with status := RunStatus.stopped, updatedAt := t } : Run).steps = r.steps ∧
    ({ r with status := RunStatus.stopped, updatedAt := t } : Run).getErrorMessage =
      r.getErrorMessage := by
  refine ⟨?_, rfl, rfl⟩
  rw [Run.stopActionStep, if_pos hstatus,
    mutateSegs_none r _ (splitDots path) hnone]

def runTrigOnly : Run :=
  { automation_id := 5, steps := [.trigger (some (.obj []))], form_id := none,
    status := RunStatus.playing, id := "run-trig", createdAt := 0, updatedAt := 0,
    toReplay := false }

/-- C7, counterexample: `stopActionStep('execution', boom)` on a playing run
with no step named `execution` transitions to `stopped` but appends no
pseudo-step and leaves `getErrorMessage()` at `undefined` — the error is not
observable on the run afterwards, contrary to the claim. -/
theorem c7_error_is_dropped :
    runTrigOnly.stopActionStep "execution" errBoom 9 =
      .ok { runTrigOnly with status := RunStatus.stopped, updatedAt := 9 } ∧
    ({ runTrigOnly with status := RunStatus.stopped, updatedAt := 9 } : Run).steps =
      runTrigOnly.steps ∧
    ({ runTrigOnly with status := RunStatus.stopped, updatedAt := 9 } : Run).getErrorMessage =
      none := by
  refine ⟨rfl, rfl, ?_⟩
  simp [Run.getErrorMessage, runTrigOnly, getErr]

/-- C7, witness for the amended statement at the same concrete input. -/
theorem c7_stop_unresolved_witness :
    runTrigOnly.stopActionStep "execution" errBoom 9 =
      .ok { runTrigOnly with status := RunStatus.stopped, updatedAt := 9 } :=
  (c7_stop_unresolved_path runTrigOnly "execution" errBoom 9 (Or.inl rfl) rfl).1

/-! ### C5 — getErrorMessage -/

/-- C5, amended: `getErrorMessage()` scans the non-trigger steps in order and
returns the message of the first recorded action error — but the scan
terminates at the first paths step it meets: it returns the search of that
step's flattened path actions, and whatever follows that paths step is never
examined (the part after the first paths step is interchangeable without
affecting the result). -/
theorem c5_error_search :
    (∀ (r : Run) (w : Step) (acts : List Step),
      r.steps = w :: acts →
      (∀ s ∈ acts, isPathsStep s = false) →
      r.getErrorMessage = (firstActionError acts).map ErrV.message) ∧
    (∀ (pre : List Step) (nm : String) (st : Nat) (entries : List PathEntry)
      (fin : Option Nat) (post post' : List Step),
      (∀ s ∈ pre, isPathsStep s = false) →
      getErr (pre ++ Step.paths nm st entries fin :: post) =
        getErr (pre ++ Step.paths nm st entries fin :: post')) := by
  constructor
  · intro r w acts hsteps hnp
    rw [Run.getErrorMessage, hsteps]
    simp only [List.drop_succ_cons, List.drop_zero]
    rw [getErr_no_paths acts hnp]
    cases firstActionError acts <;> simp
  · intro pre nm st entries fin post post' hnp
    rw [getErr_stops_at_paths pre nm st entries fin post hnp,
      getErr_stops_at_paths pre nm st entries fin post' hnp]

def runSibling : Run :=
  { automation_id := 2,
    steps := [.trigger (some (.obj [])),
      .paths "a" 0 [.mk "p" JVal.null JVal.null (.obj [("canContinue", .bool false)]) []] none,
      .action "b" 0 JVal.null none (some errBoom) none],
    form_id := none, status := RunStatus.stopped, id := "run-sib",
    createdAt := 0, updatedAt := 0, toReplay := false }

/-- C5, counterexample: in `runSibling` the error-free paths step `a` precedes
the failed action `b`; the full depth-first search the claim describes finds
`"boom"`, but `getErrorMessage()` returns `undefined` — the source `return`s
the result of the first paths step's subtree unconditionally and never reaches
the sibling `b`. -/
theorem c5_sibling_after_paths_missed :
    runSibling.getErrorMessage = none ∧
    runSibling.getErrorMessageDfs = some "boom" := by
  constructor
  · simp [Run.getErrorMessage, runSibling, getErr, List.flatMap, PathEntry.actions]
  · simp [Run.getErrorMessageDfs, runSibling, dfsFirstError, dfsStepError,
      dfsEntriesError, errBoom]

/-- C5, witness: on a run whose non-trigger steps hold no paths step, the
search returns the first action error in order (here: none). -/
theorem c5_error_search_witness :
    runA.getErrorMessage =
      (firstActionError [Step.action "a" 0 JVal.null none none none]).map ErrV.message := by
  exact c5_error_search.1 runA _ _ rfl
    (by intro s hs; simp at hs; subst hs; rfl)

/-! ### C4 — multi-item fan-out -/

theorem exceptBind_ok {e a b : Type} (x : a) (f : a → Except e b) :
    (Bind.bind (Except.ok x) f : Except e b) = f x := rfl

/-- C4, amended: an empty array filters the run and halts; a non-empty array
of N elements continues the current run with the first element (merged with
`index: 1`) recorded as its step output and one repository update, and each of
the remaining N−1 elements yields a freshly persisted clone of the current run
carrying that single element merged with its 1-based `index` — all runs
sharing the original `automation_id`. The recorded outputs are the indexed
merges, not the bare elements. -/
theorem c4_fan_out (run : Run) (name : String) (ids : Nat → String) (t : Nat) :
    (∀ (s : Step),
      splitDots name = [name] →
      run.status = RunStatus.playing →
      run.steps.find? (stepMatches name) = some s →
      ∃ rF, runActionArray run name [] ids t = .ok ⟨rF, [rF], [], false⟩ ∧
        rF.status = RunStatus.filtered) ∧
    (∀ (first : JVal) (rest : List JVal) (st : Nat) (i : JVal) (o0 : Option JVal)
      (e0 : Option ErrV) (f0 : Option Nat),
      splitDots name = [name] →
      run.steps.find? (stepMatches name) = some (.action name st i o0 e0 f0) →
      ∃ res, runActionArray run name (first :: rest) ids t = .ok res ∧
        res.shouldContinue = true ∧
        res.updates = [res.run] ∧
        res.run.automation_id = run.automation_id ∧
        res.run.status = run.status ∧
        outputAtName res.run name = some (withIndex first 1) ∧
        res.creates.length = rest.length ∧
        (∀ j c, res.creates.get? j = some c → ∃ x, rest.get? j = some x ∧
          c.automation_id = run.automation_id ∧ c.id = ids j ∧
          outputAtName c name = some (withIndex x (j + 2)))) := by
  constructor
  · intro s hsplit hstatus hfind
    have hfil := filterActionStep_spec run name (.arr []) t s hsplit hstatus hfind
    refine ⟨{ run with
      steps := modifyFirst (stepMatches name)
        (fun s' => setFinished (setOutput s' (.arr [])) t) run.steps,
      updatedAt := t, status := RunStatus.filtered }, ?_, rfl⟩
    simp only [runActionArray]
    rw [hfil, exceptBind_ok]
  · intro first rest st i o0 e0 f0 hsplit hfind
    obtain ⟨r1, hsuc, hout, haut, hstat, _, _, hsteps1⟩ :=
      outputAtName_success run name (withIndex first 1) t st i o0 e0 f0 hsplit hfind
    have hfind1 : r1.steps.find? (stepMatches name) =
        some (.action name st i (some (withIndex first 1)) e0 (some t)) := by
      rw [hsteps1]
      simpa [setOutput, setFinished] using find?_success run name (withIndex first 1) t _ hfind
    obtain ⟨cs, hrec, hlen, hprops⟩ :=
      fanClones_spec rest r1 name ids t 0 st i (some (withIndex first 1)) e0 (some t)
        hsplit hfind1
    refine ⟨⟨r1, [r1], cs, true⟩, ?_, rfl, rfl, haut, hstat, hout, hlen, ?_⟩
    · simp only [runActionArray]
      rw [hsuc, exceptBind_ok, hrec, exceptBind_ok]
    · intro j c hc
      obtain ⟨x, hx, h1, h2, _, h4⟩ := hprops j c hc
      refine ⟨x, hx, by rw [h1, haut], by simpa using h2, by simpa using h4⟩

def idsEx : Nat → String := fun _ => "clone-id"

def dataFan : List JVal :=
  [.obj [("x", .num 1)], .obj [("y", .num 2)], .obj [("z", .num 3)]]

/-- C4, counterexample: with a three-element array `[{x:1},{y:2},{z:3}]` the
output recorded on the current run is `{x:1, index:1}`, which differs from the
first element `{x:1}` — the claim's "the first element is recorded as the
current run's step output" does not hold verbatim (same for the clones). -/
theorem c4_output_gains_index :
    (runActionArray runA "a" dataFan idsEx 1).map (fun res => outputAtName res.run "a") =
      .ok (some (.obj [("x", .num 1), ("index", .num 1)])) ∧
    some (JVal.obj [("x", .num 1), ("index", .num 1)]) ≠ some (JVal.obj [("x", .num 1)]) := by
  constructor
  · rfl
  · intro h
    simp at h

/-- C4, witness: the amended fan-out at a concrete run and array. -/
theorem c4_fan_out_witness :
    (runActionArray runA "a" dataFan idsEx 1).map
      (fun res => (res.shouldContinue, res.creates.length, res.run.automation_id)) =
      .ok (true, 2, 7) := by
  obtain ⟨res, heq, hcont, _, haut, _, _, hlen, _⟩ :=
    (c4_fan_out runA "a" idsEx 1).2 (.obj [("x", .num 1)])
      [.obj [("y", .num 2)], .obj [("z", .num 3)]] 0 JVal.null none none none rfl rfl
  rw [show dataFan = JVal.obj [("x", .num 1)] ::
      [JVal.obj [("y", .num 2)], JVal.obj [("z", .num 3)]] from rfl, heq]
  simp [Except.map, hcont, hlen, haut, runA]

/-! ### C10 — fan-out outputs carry a 1-based index -/

theorem getKey_withIndex (v : JVal) (k : Nat) :
    getKey (withIndex v k) "index" = some (.num k) := by
  cases v <;> simp [withIndex, getKey, getKeyFields, getKeyFields_setKey_self]

/-- C10: in the fan-out branch every recorded output — on the current run and
on each clone — is the array element merged with the 1-based position field
(`{...element, index: i+1}`), so it always carries the `index` key, even for
the first (or only) element, whose output gains `index: 1`; and the merged
value is what `getStepsOutput()` then exposes under the action's name for
downstream template resolution. -/
theorem c10_outputs_carry_index (run : Run) (name : String) (ids : Nat → String)
    (t : Nat) (first : JVal) (rest : List JVal) (w : Option JVal) (acts : List Step)
    (st : Nat) (i : JVal) (o0 : Option JVal) (e0 : Option ErrV) (f0 : Option Nat)
    (hsplit : splitDots name = [name])
    (hn : name ≠ "trigger")
    (hsteps : run.steps = Step.trigger w :: acts)
    (hfind : acts.find? (stepMatches name) = some (.action name st i o0 e0 f0))
    (hcount : acts.countP (fun s => stepMatches name s) = 1) :
    ∃ res, runActionArray run name (first :: rest) ids t = .ok res ∧
      outputAtName res.run name = some (withIndex first 1) ∧
      getKey (withIndex first 1) "index" = some (.num 1) ∧
      (∀ j c, res.creates.get? j = some c → ∃ x, rest.get? j = some x ∧
        outputAtName c name = some (withIndex x (j + 2)) ∧
        getKey (withIndex x (j + 2)) "index" = some (.num (j + 2))) ∧
      getKey res.run.getStepsOutput name = some (withIndex first 1) := by
  have hfindRun : run.steps.find? (stepMatches name) = some (.action name st i o0 e0 f0) := by
    rw [hsteps, List.find?_cons]
    simp [stepMatches, hfind]
  obtain ⟨r1, hsuc, hout, _, _, _, _, hsteps1⟩ :=
    outputAtName_success run name (withIndex first 1) t st i o0 e0 f0 hsplit hfindRun
  have hfind1 : r1.steps.find? (stepMatches name) =
      some (.action name st i (some (withIndex first 1)) e0 (some t)) := by
    rw [hsteps1]
    simpa [setOutput, setFinished] using
      find?_success run name (withIndex first 1) t _ hfindRun
  obtain ⟨cs, hrec, hlen, hprops⟩ :=
    fanClones_spec rest r1 name ids t 0 st i (some (withIndex first 1)) e0 (some t)
      hsplit hfind1
  have hpres : ∀ s, stepMatches name (setFinished (setOutput s (withIndex first 1)) t) =
      stepMatches name s := fun s => by
    rw [stepMatches_setFinished, stepMatches_setOutput]
  have hsteps1' : r1.steps = Step.trigger w ::
      modifyFirst (stepMatches name) (fun s' => setFinished (setOutput s' (withIndex first 1)) t) acts := by
    rw [hsteps1, hsteps]
    simp [modifyFirst, stepMatches]
  have hfindActs : (modifyFirst (stepMatches name)
      (fun s' => setFinished (setOutput s' (withIndex first 1)) t) acts).find? (stepMatches name) =
      some (.action name st i (some (withIndex first 1)) e0 (some t)) := by
    simpa [setOutput, setFinished] using find?_modifyFirst hpres hfind
  have hcountActs : (modifyFirst (stepMatches name)
      (fun s' => setFinished (setOutput s' (withIndex first 1)) t) acts).countP
      (fun s => stepMatches name s) = 1 := by
    rw [countP_modifyFirst hpres]
    exact hcount
  refine ⟨⟨r1, [r1], cs, true⟩, ?_, hout, getKey_withIndex first 1, ?_, ?_⟩
  · simp only [runActionArray]
    rw [hsuc, exceptBind_ok, hrec, exceptBind_ok]
  · intro j c hc
    obtain ⟨x, hx, _, _, _, h4⟩ := hprops j c hc
    exact ⟨x, hx, by simpa using h4, getKey_withIndex x (j + 2)⟩
  · exact getKey_getStepsOutput r1 w _ name st i (withIndex first 1) e0 (some t)
      hsteps1' hn hfindActs hcountActs

/-- C10, witness: concrete single-element fan-out — the recorded output and
the template-resolution context both show `index: 1`. -/
theorem c10_outputs_carry_index_witness :
    (runActionArray runA "a" [.obj [("x", .num 1)]] idsEx 1).map
      (fun res => getKey res.run.getStepsOutput "a") =
      .ok (some (.obj [("x", .num 1), ("index", .num 1)])) := by
  obtain ⟨res, heq, _, _, _, hgso⟩ :=
    c10_outputs_carry_index runA "a" idsEx 1 (.obj [("x", .num 1)]) []
      (some (.obj [("y", .num 2)])) [.action "a" 0 JVal.null none none none]
      0 JVal.null none none none rfl (by decide) rfl rfl rfl
  rw [heq]
  simp only [Except.map]
  rw [hgso]
  rfl

/-! ### C8 — split-into-paths per-path error isolation -/

/-- C8: the split-into-paths dispatch emits one paths step appended to the
run's steps, with exactly one entry per declared path, in declaration order;
a path whose filter evaluation throws gets the entry
`{input: raw filter, output: {canContinue: false, error}}` while every other
path still gets its own evaluated entry — one path's failure never removes
another path's entry. -/
theorem c8_split_into_paths (run : Run) (name : String) (params : List PathParam)
    (eval : PathParam → JVal → Except String (JVal × JVal)) (t : Nat) :
    ∃ entries, (splitIntoPaths run name params eval t).1.steps =
        run.steps ++ [Step.paths name t entries none] ∧
      entries.length = params.length ∧
      entries.map PathEntry.name = params.map PathParam.name ∧
      (∀ p ∈ params, ∀ e, eval p run.getStepsOutput = .error e →
        (PathEntry.mk p.name p.filter p.filter
          (.obj [("canContinue", .bool false), ("error", .str e)]) []) ∈ entries) ∧
      (∀ p ∈ params, ∀ filled result, eval p run.getStepsOutput = .ok (filled, result) →
        (PathEntry.mk p.name p.filter filled result []) ∈ entries) := by
  refine ⟨(params.map (splitEntry run.getStepsOutput eval)).map Prod.fst, rfl, by simp, ?_, ?_, ?_⟩
  · rw [List.map_map, List.map_map]
    refine List.map_congr_left ?_
    intro p _
    cases heval : eval p run.getStepsOutput with
    | error e => simp [splitEntry, heval, PathEntry.name]
    | ok fr =>
      obtain ⟨filled, result⟩ := fr
      simp [splitEntry, heval, PathEntry.name]
  · intro p hp e heval
    have hval : Prod.fst (splitEntry run.getStepsOutput eval p) =
        PathEntry.mk p.name p.filter p.filter
          (.obj [("canContinue", .bool false), ("error", .str e)]) [] := by
      simp [splitEntry, heval]
    rw [← hval]
    exact List.mem_map_of_mem _ (List.mem_map_of_mem _ hp)
  · intro p hp filled result heval
    have hval : Prod.fst (splitEntry run.getStepsOutput eval p) =
        PathEntry.mk p.name p.filter filled result [] := by
      simp [splitEntry, heval]
    rw [← hval]
    exact List.mem_map_of_mem _ (List.mem_map_of_mem _ hp)

def paramsW : List PathParam := [⟨"p1", .null⟩, ⟨"p2", .null⟩, ⟨"p3", .null⟩]

def evalW : PathParam → JVal → Except String (JVal × JVal) := fun p _ =>
  if p.name == "p2" then .error "boom"
  else .ok (p.filter, .obj [("canContinue", .bool true)])

/-- C8, witness: three declared paths with the middle filter throwing still
yield exactly one appended paths step (its entries covering all three, as the
theorem states). -/
theorem c8_split_into_paths_witness :
    ((splitIntoPaths runTrigOnly "sp" paramsW evalW 1).1.steps).length =
      runTrigOnly.steps.length + 1 := by
  obtain ⟨entries, hsteps, hlen, _, _, _⟩ :=
    c8_split_into_paths runTrigOnly "sp" paramsW evalW 1
  rw [hsteps]
  simp

/-! ### C9 — all-paths-false split is filtered -/

theorem string_empty_append (s : String) : "" ++ s = s := by
  cases s
  rfl

/-- C9: a top-level split-into-paths action whose recorded paths all evaluated
strictly `canContinue === false` (and whose data offers no path strictly
`canContinue === true`, so no path body runs) makes the orchestrator filter
the run: the status becomes `filtered` — not `stopped` —, no alert is raised,
and the action walk does not continue. -/
theorem c9_all_false_filters (run : Run) (name : String) (params : List PathParam)
    (data : JVal) (exec : String → Run → Run × Option ErrV) (t st : Nat)
    (entries : List PathEntry) (fin : Option Nat)
    (hsplit : splitDots name = [name])
    (hstatus : run.status = RunStatus.playing)
    (hfind : run.steps.find? (stepMatches name) = some (.paths name st entries fin))
    (hall : ∀ en ∈ entries, canContinueFalse en.output = true)
    (hskip : ∀ p ∈ params, canContinueTrueAt data p.name = false) :
    ∃ res, runActionSplit run none name params data exec t = .ok res ∧
      res.run.status = RunStatus.filtered ∧ res.shouldContinue = false ∧
      res.alerted = false := by
  obtain ⟨r1, hsuc, hstat1, _, hfind1⟩ :=
    success_on_paths_spec run name data t st entries fin hsplit hfind
  have hstat1' : r1.status = RunStatus.playing := hstat1.trans hstatus
  have hexec := executePaths_skip exec r1 none name data params hskip
  have hfil := filterActionStep_spec r1 name data t _ hsplit hstat1' hfind1
  have hga : r1.getActionOrPathsStep name = .ok (some (.paths name st entries (some t))) := by
    rw [getActionOrPathsStep_single r1 name hsplit, hfind1]
  refine ⟨⟨{ r1 with
      steps := modifyFirst (stepMatches name) (fun s' => setFinished (setOutput s' data) t) r1.steps,
      updatedAt := t, status := RunStatus.filtered }, false, false⟩, ?_, rfl, rfl, rfl⟩
  simp only [runActionSplit, string_empty_append]
  rw [hsuc]
  simp only [hexec]
  rw [hga]
  simp only [List.all_eq_true.mpr hall, if_pos]
  rw [hfil, exceptBind_ok]

def runPathsFalse : Run :=
  { automation_id := 3,
    steps := [.trigger (some (.obj [])),
      .paths "sp" 0 [
        .mk "p1" JVal.null JVal.null (.obj [("canContinue", .bool false)]) [],
        .mk "p2" JVal.null JVal.null (.obj [("canContinue", .bool false)]) []] none],
    form_id := none, status := RunStatus.playing, id := "run-pf",
    createdAt := 0, updatedAt := 0, toReplay := false }

def dataPathsFalse : JVal :=
  .obj [("p1", .obj [("canContinue", .bool false)]),
        ("p2", .obj [("canContinue", .bool false)])]

/-- C9, witness: a concrete two-path split whose filters both said
`canContinue: false` leaves the run `filtered` and halts the walk. -/
theorem c9_all_false_filters_witness :
    (runActionSplit runPathsFalse none "sp"
        [⟨"p1", JVal.null⟩, ⟨"p2", JVal.null⟩] dataPathsFalse
        (fun _ r => (r, none)) 1).map
      (fun res => (res.run.status, res.shouldContinue, res.alerted)) =
      .ok (RunStatus.filtered, false, false) := by
  obtain ⟨res, heq, h1, h2, h3⟩ :=
    c9_all_false_filters runPathsFalse "sp" [⟨"p1", JVal.null⟩, ⟨"p2", JVal.null⟩]
      dataPathsFalse (fun _ r => (r, none)) 1 0
      [.mk "p1" JVal.null JVal.null (.obj [("canContinue", .bool false)]) [],
       .mk "p2" JVal.null JVal.null (.obj [("canContinue", .bool false)]) []] none
      rfl rfl rfl
      (by intro en hen; fin_cases hen <;> rfl)
      (by intro p hp; fin_cases hp <;> rfl)
  rw [heq]
  simp [Except.map, h1, h2, h3]
